import Mathlib

/-!
Verification of the placeholder-resolution engine of `gauge-external-params`.

The JavaScript source is shallowly embedded as pure Lean functions:
promises become plain results, thrown errors become `Except.error` / an
explicit error case, the mutable `Map` caches become association lists
threaded through a state record, `Date.now()` becomes an explicit `now`
argument, and the `console.*` log sink plus the backend calls performed
are recorded in an explicit trace so that "no backend call happened" and
"this text was logged" are provable statements.
-/

namespace GaugeEP

/-- A JavaScript value as far as `ParamResolver` inspects it: sources may
return a string, `null` or `undefined`. -/
inductive JsVal where
  | vNull
  | vUndef
  | vStr (s : String)
deriving DecidableEq, Repr

/-- Outcome of a call to `source.resolve(key)`: a returned value or a thrown
error (carrying its message). -/
inductive SrcResult where
  | ok (v : JsVal)
  | err (msg : String)
deriving DecidableEq, Repr

/-- A registered source adapter: its constructor name (used in warn logs)
and its `resolve` behaviour, modelled as a pure function from key to
outcome (`resolve` is pure from the caller's perspective, per the contract). -/
structure Source where
  name : String
  resolve : String → SrcResult

/-- `{value, timestamp}` as stored by `setCachedValue`. -/
structure CacheEntry where
  value : String
  timestamp : Nat
deriving DecidableEq, Repr

/-- The mutable state of a `ParamResolver` plus the observable traces:
the top-level cache, the list of backend `resolve` calls performed
(source name, key), and the `console.*` log lines emitted. -/
structure RState where
  cache : List (String × CacheEntry)
  calls : List (String × String)
  logs : List String

/-- The engine configuration fixed at construction: the source registration
(a `Map` from identifier to adapter, embedded as an association list whose
`lookup` mirrors `Map.get`) and the top-level cache TTL in milliseconds. -/
structure ParamResolver where
  sources : List (String × Source)
  cacheTimeout : Nat

/-- `this.sourcePrecedence = ['env', 'file', 'vault', 'aws', 'k8s', 'http']`
set in the constructor. -/
def sourcePrecedence : List String := ["env", "file", "vault", "aws", "k8s", "http"]

/-- `Map.delete k` on the association-list embedding: remove every binding
of `k` (the list never holds duplicate keys, since insertion also filters). -/
def eraseKey (k : String) (cache : List (String × CacheEntry)) :
    List (String × CacheEntry) :=
  cache.filter (fun p => p.1 ≠ k)

/-- `getCachedValue(key)`: look the key up; a present entry is served unless
`Date.now() - cached.timestamp > this.cacheTimeout`, in which case it is
deleted and `null` is returned.  Returns the served value (if any) together
with the cache after the lazy eviction. -/
def getCachedValue (now timeout : Nat) (cache : List (String × CacheEntry))
    (key : String) : Option String × List (String × CacheEntry) :=
  match cache.lookup key with
  | none => (none, cache)
  | some e =>
    if now - e.timestamp > timeout then (none, eraseKey key cache)
    else (some e.value, cache)

/-- `setCachedValue(key, value)`: `Map.set` with `timestamp: Date.now()`. -/
def setCachedValue (cache : List (String × CacheEntry)) (key value : String)
    (now : Nat) : List (String × CacheEntry) :=
  (key, ⟨value, now⟩) :: eraseKey key cache

/-- `getOrderedSources(preferredSourceType)`: the declared source first if
registered, then the precedence list in order, skipping the declared source
and any identifier not in the registration. -/
def getOrderedSources (r : ParamResolver) (preferred : String) : List Source :=
  (match r.sources.lookup preferred with
   | some s => [s]
   | none => []) ++
  (sourcePrecedence.filter (fun t => t ≠ preferred)).filterMap
    (fun t => r.sources.lookup t)

/-- The `console.warn` line emitted when a source throws during the walk. -/
def sourceFailLog (srcName key msg : String) : String :=
  "Source " ++ srcName ++ " failed for key " ++ key ++ ": " ++ msg

/-- The walk of `resolvePlaceholder`'s `for (const source of orderedSources)`
loop: call each source in order; a defined non-null value stops the walk, a
null/undefined return advances, a thrown error advances with `lastError`
updated and a warn line logged.  Returns (found value, last error, state). -/
def trySources (key : String) :
    List Source → Option String → RState → Option String × Option String × RState
  | [], lastError, st => (none, lastError, st)
  | s :: rest, lastError, st =>
    let st1 : RState := { st with calls := st.calls ++ [(s.name, key)] }
    match s.resolve key with
    | .ok (.vStr v) => (some v, lastError, st1)
    | .ok .vNull => trySources key rest lastError st1
    | .ok .vUndef => trySources key rest lastError st1
    | .err m =>
      trySources key rest (some m)
        { st1 with logs := st1.logs ++ [sourceFailLog s.name key m] }

/-- `lastError?.message || 'No sources available'` folded into the final
error text of `resolvePlaceholder`. -/
def unresolvedMsg (key sourceType : String) (lastError : Option String) : String :=
  "Could not resolve placeholder for key " ++ "'" ++ key ++ "'" ++
  " from source " ++ "'" ++ sourceType ++ "'" ++ ". Last error: " ++
  (match lastError with
   | some m => m
   | none => "No sources available")

/-- The cache key `` `${name}:${sourceType}:${key}` ``. -/
def cacheKeyStr (name sourceType key : String) : String :=
  name ++ ":" ++ sourceType ++ ":" ++ key

/-- `resolvePlaceholder(name, sourceType, key, defaultValue)`: top-level
cache first; on a miss walk the ordered sources; a winning value is cached
and returned; otherwise the default (if supplied, uncached) or a thrown
`Could not resolve placeholder ...` error. -/
def resolvePlaceholder (r : ParamResolver) (now : Nat) (st : RState)
    (name sourceType key : String) (defaultValue : Option String) :
    Except String String × RState :=
  match getCachedValue now r.cacheTimeout st.cache (cacheKeyStr name sourceType key) with
  | (some v, cache1) => (.ok v, { st with cache := cache1 })
  | (none, cache1) =>
    match trySources key (getOrderedSources r sourceType) none { st with cache := cache1 } with
    | (some v, _, st2) =>
      (.ok v,
       { st2 with cache := setCachedValue st2.cache (cacheKeyStr name sourceType key) v now })
    | (none, lastError, st2) =>
      match defaultValue with
      | some d => (.ok d, st2)
      | none => (.error (unresolvedMsg key sourceType lastError), st2)

/-- One match of the placeholder regex
`<([^:]+):([^#]+)#([^|>]+)(?:\|([^>]+))?>`: the full matched text and the
four capture groups (group 4 absent when no default was written). -/
structure PHMatch where
  full : List Char
  name : List Char
  source : List Char
  key : List Char
  defaultValue : Option (List Char)
deriving DecidableEq, Repr

/-- Attempt the placeholder regex at the very start of the character list.
Each character class `[^c]+` matches the maximal run of characters other
than `c` (the run is forced: no backtracking can produce another split),
so maximal-munch spans embed the regex exactly.  After a span stopping on
`:` (resp. `#`, `>`) a non-empty remainder necessarily starts with that
character, so only the `key` boundary (`|` versus `>`) is tested
explicitly. -/
def matchAt : List Char → Option (PHMatch × List Char)
  | [] => none
  | c0 :: r0 =>
    if c0 = '<' then
      let p1 := r0.span (fun c => c != ':')
      if p1.1 = [] then none else
      match p1.2 with
      | [] => none
      | _ :: r2 =>
        let p2 := r2.span (fun c => c != '#')
        if p2.1 = [] then none else
        match p2.2 with
        | [] => none
        | _ :: r4 =>
          let p3 := r4.span (fun c => c != '|' && c != '>')
          if p3.1 = [] then none else
          match p3.2 with
          | [] => none
          | c5 :: r6 =>
            if c5 = '>' then
              some (⟨'<' :: p1.1 ++ ':' :: p2.1 ++ '#' :: p3.1 ++ ['>'],
                     p1.1, p2.1, p3.1, none⟩, r6)
            else
              let p4 := r6.span (fun c => c != '>')
              if p4.1 = [] then none else
              match p4.2 with
              | [] => none
              | _ :: r9 =>
                some (⟨'<' :: p1.1 ++ ':' :: p2.1 ++ '#' :: p3.1 ++
                        '|' :: p4.1 ++ ['>'],
                       p1.1, p2.1, p3.1, some p4.1⟩, r9)
    else none

/-- Fuel-driven scan for `text.matchAll(regex)`: try the regex at each
position left to right; after a match, continue from the character right
after it (the regex never matches the empty string, so `lastIndex` always
advances past the whole match). -/
def matchAllFuel : Nat → List Char → List PHMatch
  | 0, _ => []
  | _ + 1, [] => []
  | fuel + 1, c :: rest =>
    match matchAt (c :: rest) with
    | some (m, r) => m :: matchAllFuel fuel r
    | none => matchAllFuel fuel rest

/-- `[...text.matchAll(this.placeholderRegex)]`. -/
def matchAll (cs : List Char) : List PHMatch :=
  matchAllFuel cs.length cs

/-- The first match of the (non-global) regex anywhere in the text, as used
by `String.prototype.match` in `parsePlaceholder`. -/
def firstMatch : List Char → Option PHMatch
  | [] => none
  | c :: rest =>
    match matchAt (c :: rest) with
    | some (m, _) => some m
    | none => firstMatch rest

/-- ECMAScript `GetSubstitution` applied to a string replacement with zero
capture groups: `$$` yields `$`, `$&` the matched text, a dollar before a
backquote the text before the match, a dollar before a quote the text after
it, and any other `$` sequence stays literal. -/
def getSubstitution (matched before after : List Char) : List Char → List Char
  | [] => []
  | '$' :: '$' :: r => '$' :: getSubstitution matched before after r
  | '$' :: '&' :: r => matched ++ getSubstitution matched before after r
  | '$' :: c :: r =>
    if c = Char.ofNat 96 then before ++ getSubstitution matched before after r
    else if c = Char.ofNat 39 then after ++ getSubstitution matched before after r
    else '$' :: getSubstitution matched before after (c :: r)
  | c :: r => c :: getSubstitution matched before after r

/-- Split a text around the first occurrence of a non-empty pattern, as
`String.prototype.indexOf` finds it: leftmost match. -/
def splitAtSub (pat : List Char) : List Char → Option (List Char × List Char)
  | [] => if pat = [] then some ([], []) else none
  | c :: rest =>
    if pat <+: (c :: rest) then some ([], (c :: rest).drop pat.length)
    else
      match splitAtSub pat rest with
      | some (b, a) => some (c :: b, a)
      | none => none

/-- `text.replace(pattern, replacement)` with a string pattern: replace the
first occurrence only, running the replacement through `GetSubstitution`
(so `$` sequences in the replacement are interpreted, not literal). -/
def jsReplace (txt pat repl : List Char) : List Char :=
  match splitAtSub pat txt with
  | none => txt
  | some (before, after) => before ++ getSubstitution pat before after repl ++ after

/-- The `console.error` line of `resolveText`'s catch block. -/
def resolveFailLog (full : List Char) (msg : String) : String :=
  "Failed to resolve placeholder " ++ String.mk full ++ ": " ++ msg

/-- The error thrown by `resolveText` for an unresolvable placeholder with
no default. -/
def requiredMsg (full : List Char) (msg : String) : String :=
  "Failed to resolve required placeholder " ++ String.mk full ++ ": " ++ msg

/-- The `for (const match of matches)` loop of `resolveText`: resolve each
match in order, substituting into the working text; a failed resolution is
logged and falls back to the default, or aborts the whole call when no
default exists. -/
def resolveLoop (r : ParamResolver) (now : Nat) :
    RState → List Char → List PHMatch → Except String (List Char) × RState
  | st, txt, [] => (.ok txt, st)
  | st, txt, m :: rest =>
    match resolvePlaceholder r now st (String.mk m.name) (String.mk m.source)
        (String.mk m.key) (m.defaultValue.map String.mk) with
    | (.ok v, st1) => resolveLoop r now st1 (jsReplace txt m.full v.data) rest
    | (.error e, st1) =>
      let st2 : RState := { st1 with logs := st1.logs ++ [resolveFailLog m.full e] }
      match m.defaultValue with
      | some d => resolveLoop r now st2 (jsReplace txt m.full d) rest
      | none => (.error (requiredMsg m.full e), st2)

/-- `resolveText` on an input already known to be a string. -/
def resolveTextS (r : ParamResolver) (now : Nat) (st : RState) (s : String) :
    Except String String × RState :=
  if s = "" then (.ok s, st)
  else
    match resolveLoop r now st s.data (matchAll s.data) with
    | (.ok cs, st1) => (.ok (String.mk cs), st1)
    | (.error e, st1) => (.error e, st1)

/-- A JavaScript argument to `resolveText` as far as the guard
`if (!text || typeof text !== 'string')` distinguishes it: `null`,
`undefined`, a string, or any non-string value. -/
inductive JSInput where
  | jnull
  | jundef
  | jstr (s : String)
  | jother
deriving DecidableEq, Repr

/-- `resolveText(text)`: falsy or non-string inputs are returned unchanged;
otherwise every placeholder match is resolved and substituted. -/
def resolveText (r : ParamResolver) (now : Nat) (st : RState) (input : JSInput) :
    Except String JSInput × RState :=
  match input with
  | .jstr s =>
    if s = "" then (.ok input, st)
    else
      match resolveTextS r now st s with
      | (.ok out, st1) => (.ok (.jstr out), st1)
      | (.error e, st1) => (.error e, st1)
  | other => (.ok other, st)

/-- The parsed form returned by `ParamResolver.parsePlaceholder`. -/
structure Placeholder where
  name : String
  source : String
  key : String
  defaultValue : Option String
deriving DecidableEq, Repr

/-- `parsePlaceholder(placeholderText)`: match the (non-global) placeholder
regex anywhere in the text; `none` embeds the thrown
`Invalid placeholder syntax` error. -/
def parsePlaceholder (text : String) : Option Placeholder :=
  (firstMatch text.data).map fun m =>
    ⟨String.mk m.name, String.mk m.source, String.mk m.key,
     m.defaultValue.map String.mk⟩

/-- `createPlaceholder(name, source, key, defaultValue = null)`. -/
def createPlaceholder (name source key : String) (defaultValue : Option String) :
    String :=
  "<" ++ name ++ ":" ++ source ++ "#" ++ key ++
  (match defaultValue with
   | some d => "|" ++ d
   | none => "") ++ ">"

/-- A character of the class `[a-zA-Z0-9+/]` of `maskSensitiveInfo`. -/
def isSecretChar (c : Char) : Bool :=
  c.isAlpha || c.isDigit || c = '+' || c = '/'

/-- The global replace of `maskSensitiveInfo`: scan the text accumulating
the current run of class characters; when the run ends (or the text does),
emit `****` if the run reached 20 characters, else the run itself. -/
def maskGo (acc : List Char) : List Char → List Char
  | [] => if acc.length ≥ 20 then "****".data else acc
  | c :: rest =>
    if isSecretChar c then maskGo (acc ++ [c]) rest
    else
      (if acc.length ≥ 20 then "****".data else acc) ++ c :: maskGo [] rest

/-- `maskSensitiveInfo(message)`: replace every contiguous run of 20 or more
`[a-zA-Z0-9+/]` characters by the fixed token `****`
(`message.replace(/([a-zA-Z0-9+\/]{20,})/g, '****')`). -/
def maskSensitiveInfo (message : String) : String :=
  String.mk (maskGo [] message.data)

/-- Decidable "needle occurs as a contiguous substring of hay". -/
def containsSub (needle : List Char) : List Char → Bool
  | [] => needle = []
  | c :: rest => needle <+: (c :: rest) || containsSub needle rest

/-- The gRPC `executionResult` returned by a plugin handler. -/
structure StepResult where
  failed : Bool
  errorMessage : Option String
  text : Option String
deriving DecidableEq, Repr

/-- `handleStepExecutionStarting` restricted to its core path (a step with
an `actualText` and no fragments): resolve the step text; on success report
the resolved text; on failure log the raw error via `console.error` and
answer the caller with the masked error message. -/
def handleStepExecutionStarting (r : ParamResolver) (now : Nat) (st : RState)
    (actualText : String) : StepResult × RState :=
  match resolveTextS r now st actualText with
  | (.ok out, st1) => (⟨false, none, some out⟩, st1)
  | (.error e, st1) =>
    (⟨true, some ("Parameter resolution failed: " ++ maskSensitiveInfo e), none⟩,
     { st1 with logs := st1.logs ++ ["Error resolving step parameters: " ++ e] })

/-- An entry of a directory tree handed to the batch `Preprocessor`:
a file with its content, or a subdirectory. -/
inductive FsItem where
  | file (nm : String) (content : String)
  | dir (nm : String) (items : List FsItem)
deriving Repr

/-- `path.extname` for the names the preprocessor sees: the suffix from the
last dot on, empty when there is no dot or the only dot leads the name. -/
def extname (nm : String) : String :=
  match (nm.data.reverse).span (fun c => c != '.') with
  | (_, []) => ""
  | (ext, _ :: before) =>
    if before = [] then "" else String.mk ('.' :: ext.reverse)

/-- ASCII `toLowerCase` on one character (the extensions compared against
`.spec` / `.md` only involve ASCII letters). -/
def lowerChar (c : Char) : Char :=
  if c.isUpper then Char.ofNat (c.toNat + 32) else c

/-- `filename.toLowerCase()` restricted to ASCII letters. -/
def lowerStr (s : String) : String := String.mk (s.data.map lowerChar)

/-- `isSpecFile(filename)`: extension `.spec` or `.md`, case-insensitive. -/
def isSpecFile (nm : String) : Bool :=
  lowerStr (extname nm) = ".spec" || lowerStr (extname nm) = ".md"

/-- One produced output file of a batch run: its mirrored path under the
output root (as path segments), the bytes written, and whether it is a
copy-through recorded as a failure. -/
structure OutFile where
  path : List String
  content : String
  failed : Bool
deriving DecidableEq, Repr

/-- `processSpecFile`: resolve the document; on failure the original
content is copied through to the target path and the failure is recorded
(`console.error`), instead of propagating the error. -/
def processSpecFile (r : ParamResolver) (now : Nat) (st : RState)
    (content : String) : String × Bool × RState :=
  match resolveTextS r now st content with
  | (.ok out, st1) => (out, false, st1)
  | (.error e, st1) =>
    (content, true,
     { st1 with logs := st1.logs ++ ["Failed to process spec file: " ++ e] })

/-- `processDirectoryRecursive`, embedded fuel-indexed (the JavaScript
recursion always terminates on a finite tree; here the fuel bounds the
recursion depth, `enoughFuel` characterising sufficiency): spec files are
resolved (a failing one is copied through and recorded), other files are
copied as-is, directories are recursed into; the walk always continues to
the next item. -/
def processDirectoryRecursive (r : ParamResolver) (now : Nat) :
    Nat → List FsItem → List String → RState → List OutFile × RState
  | 0, _, _, st => ([], st)
  | _ + 1, [], _, st => ([], st)
  | fuel + 1, .file nm content :: rest, pre, st =>
    let first :=
      if isSpecFile nm then
        let t := processSpecFile r now st content
        ([OutFile.mk (pre ++ [nm]) t.1 t.2.1], t.2.2)
      else ([OutFile.mk (pre ++ [nm]) content false], st)
    let next := processDirectoryRecursive r now fuel rest pre first.2
    (first.1 ++ next.1, next.2)
  | fuel + 1, .dir nm items :: rest, pre, st =>
    let sub := processDirectoryRecursive r now fuel items (pre ++ [nm]) st
    let next := processDirectoryRecursive r now fuel rest pre sub.2
    (sub.1 ++ next.1, next.2)

/-- Fuel sufficiency for `processDirectoryRecursive`: enough fuel to reach
every item of the tree (any fuel at least the tree depth-plus-breadth
qualifies, and more fuel never changes the result). -/
def enoughFuel : Nat → List FsItem → Bool
  | 0, [] => true
  | 0, _ :: _ => false
  | _ + 1, [] => true
  | fuel + 1, .file _ _ :: rest => enoughFuel fuel rest
  | fuel + 1, .dir _ items :: rest => enoughFuel fuel items && enoughFuel fuel rest

/-- A source call outcome that yields no defined, non-null value: a thrown
error, or a returned `null`/`undefined`. -/
def noValue : SrcResult → Bool
  | .ok (.vStr _) => false
  | _ => true

/-- The `lastError` accumulated by the walk over a list of sources none of
which stops it: the message of the last source that threw, if any. -/
def lastThrownError (key : String) (srcs : List Source) (le : Option String) :
    Option String :=
  srcs.foldl
    (fun acc s =>
      match s.resolve key with
      | .err m => some m
      | _ => acc) le

/-- The backend calls the walk performs on a list of sources it walks
through entirely. -/
def walkCalls (key : String) (srcs : List Source) : List (String × String) :=
  srcs.map (fun s => (s.name, key))

/-- The `console.warn` lines the walk emits for the throwing sources among
a list it walks through entirely. -/
def walkWarnLogs (key : String) (srcs : List Source) : List String :=
  srcs.filterMap
    (fun s =>
      match s.resolve key with
      | .err m => some (sourceFailLog s.name key m)
      | _ => none)

theorem trySources_none (key : String) :
    ∀ (srcs : List Source) (le : Option String) (st : RState),
      (∀ s ∈ srcs, noValue (s.resolve key) = true) →
      trySources key srcs le st =
        (none, lastThrownError key srcs le,
         ⟨st.cache, st.calls ++ walkCalls key srcs, st.logs ++ walkWarnLogs key srcs⟩) := by
  intro srcs
  induction srcs with
  | nil =>
    intro le st _
    simp [trySources, lastThrownError, walkCalls, walkWarnLogs]
  | cons s rest ih =>
    intro le st hall
    have hs : noValue (s.resolve key) = true := hall s (by simp)
    have hrest : ∀ s' ∈ rest, noValue (s'.resolve key) = true := by
      intro s' hs'
      exact hall s' (by simp [hs'])
    cases hres : s.resolve key with
    | ok v =>
      cases v with
      | vNull =>
        simp only [trySources, hres]
        rw [ih _ _ hrest]
        simp [lastThrownError, walkCalls, walkWarnLogs, hres]
      | vUndef =>
        simp only [trySources, hres]
        rw [ih _ _ hrest]
        simp [lastThrownError, walkCalls, walkWarnLogs, hres]
      | vStr v =>
        rw [hres] at hs
        simp [noValue] at hs
    | err m =>
      simp only [trySources, hres]
      rw [ih _ _ hrest]
      simp [lastThrownError, walkCalls, walkWarnLogs, hres]

theorem trySources_success (key : String) :
    ∀ (pre : List Source) (s : Source) (post : List Source) (v : String)
      (le : Option String) (st : RState),
      (∀ s' ∈ pre, noValue (s'.resolve key) = true) →
      s.resolve key = .ok (.vStr v) →
      trySources key (pre ++ s :: post) le st =
        (some v, lastThrownError key pre le,
         ⟨st.cache, st.calls ++ walkCalls key pre ++ [(s.name, key)],
          st.logs ++ walkWarnLogs key pre⟩) := by
  intro pre
  induction pre with
  | nil =>
    intro s post v le st _ hs
    simp [trySources, hs, lastThrownError, walkCalls, walkWarnLogs]
  | cons s' rest ih =>
    intro s post v le st hall hs
    have hs' : noValue (s'.resolve key) = true := hall s' (by simp)
    have hrest : ∀ x ∈ rest, noValue (x.resolve key) = true := by
      intro x hx
      exact hall x (by simp [hx])
    cases hres : s'.resolve key with
    | ok w =>
      cases w with
      | vNull =>
        simp only [List.cons_append, trySources, hres]
        rw [List.append_eq, ih s post v le _ hrest hs]
        simp [lastThrownError, walkCalls, walkWarnLogs, hres]
      | vUndef =>
        simp only [List.cons_append, trySources, hres]
        rw [List.append_eq, ih s post v le _ hrest hs]
        simp [lastThrownError, walkCalls, walkWarnLogs, hres]
      | vStr w =>
        rw [hres] at hs'
        simp [noValue] at hs'
    | err m =>
      simp only [List.cons_append, trySources, hres]
      rw [List.append_eq, ih s post v (some m) _ hrest hs]
      simp [lastThrownError, walkCalls, walkWarnLogs, hres]

theorem trySources_cache_unchanged (key : String) :
    ∀ (srcs : List Source) (le : Option String) (st : RState),
      (trySources key srcs le st).2.2.cache = st.cache := by
  intro srcs
  induction srcs with
  | nil => intro le st; simp [trySources]
  | cons s rest ih =>
    intro le st
    cases hres : s.resolve key with
    | ok v =>
      cases v with
      | vNull => simp only [trySources, hres]; exact ih _ _
      | vUndef => simp only [trySources, hres]; exact ih _ _
      | vStr v => simp [trySources, hres]
    | err m => simp only [trySources, hres]; exact ih _ _

theorem trySources_calls_extend (key : String) :
    ∀ (srcs : List Source) (le : Option String) (st : RState),
      ∃ ext, (trySources key srcs le st).2.2.calls = st.calls ++ ext := by
  intro srcs
  induction srcs with
  | nil => intro le st; exact ⟨[], by simp [trySources]⟩
  | cons s rest ih =>
    intro le st
    cases hres : s.resolve key with
    | ok v =>
      cases v with
      | vNull =>
        obtain ⟨ext, hext⟩ := ih le ⟨st.cache, st.calls ++ [(s.name, key)], st.logs⟩
        exact ⟨(s.name, key) :: ext, by simp only [trySources, hres]; simpa using hext⟩
      | vUndef =>
        obtain ⟨ext, hext⟩ := ih le ⟨st.cache, st.calls ++ [(s.name, key)], st.logs⟩
        exact ⟨(s.name, key) :: ext, by simp only [trySources, hres]; simpa using hext⟩
      | vStr v => exact ⟨[(s.name, key)], by simp [trySources, hres]⟩
    | err m =>
      obtain ⟨ext, hext⟩ := ih (some m)
        ⟨st.cache, st.calls ++ [(s.name, key)],
         st.logs ++ [sourceFailLog s.name key m]⟩
      exact ⟨(s.name, key) :: ext, by simp only [trySources, hres]; simpa using hext⟩

theorem trySources_head_called (key : String) (s : Source) (rest : List Source)
    (le : Option String) (st : RState) :
    ∃ ext, (trySources key (s :: rest) le st).2.2.calls =
      st.calls ++ (s.name, key) :: ext := by
  cases hres : s.resolve key with
  | ok v =>
    cases v with
    | vNull =>
      obtain ⟨ext, hext⟩ := trySources_calls_extend key rest le
        ⟨st.cache, st.calls ++ [(s.name, key)], st.logs⟩
      exact ⟨ext, by simp only [trySources, hres]; simpa using hext⟩
    | vUndef =>
      obtain ⟨ext, hext⟩ := trySources_calls_extend key rest le
        ⟨st.cache, st.calls ++ [(s.name, key)], st.logs⟩
      exact ⟨ext, by simp only [trySources, hres]; simpa using hext⟩
    | vStr v => exact ⟨[], by simp [trySources, hres]⟩
  | err m =>
    obtain ⟨ext, hext⟩ := trySources_calls_extend key rest (some m)
      ⟨st.cache, st.calls ++ [(s.name, key)],
       st.logs ++ [sourceFailLog s.name key m]⟩
    exact ⟨ext, by simp only [trySources, hres]; simpa using hext⟩

/-- On a cache miss, a walk whose first defined non-null value comes from
source `s` (after `pre`, all of which yield no value) returns that value,
caches it, and performs exactly the calls up to and including `s`. -/
theorem resolvePlaceholder_walk_success (r : ParamResolver) (now : Nat) (st : RState)
    (name sourceType key : String) (dflt : Option String)
    (pre : List Source) (s : Source) (post : List Source) (v : String)
    (hmiss : (getCachedValue now r.cacheTimeout st.cache
      (cacheKeyStr name sourceType key)).1 = none)
    (hchain : getOrderedSources r sourceType = pre ++ s :: post)
    (hpre : ∀ s' ∈ pre, noValue (s'.resolve key) = true)
    (hs : s.resolve key = .ok (.vStr v)) :
    resolvePlaceholder r now st name sourceType key dflt =
      (.ok v,
       ⟨setCachedValue
          (getCachedValue now r.cacheTimeout st.cache (cacheKeyStr name sourceType key)).2
          (cacheKeyStr name sourceType key) v now,
        st.calls ++ walkCalls key pre ++ [(s.name, key)],
        st.logs ++ walkWarnLogs key pre⟩) := by
  cases hgc : getCachedValue now r.cacheTimeout st.cache (cacheKeyStr name sourceType key) with
  | mk g1 g2 =>
    rw [hgc] at hmiss
    simp only at hmiss
    subst hmiss
    simp only [resolvePlaceholder, hgc, hchain]
    rw [trySources_success key pre s post v none _ hpre hs]

/-- C1: walking the fallback chain stops at the first source whose
`resolve(key)` call returns a defined, non-null value: that value is
inserted into the top-level cache and returned immediately; the calls trace
shows no source after it is called, and throwing sources before it are
skipped (their warn lines logged, the walk advancing; `trySources_none`
and C6 cover the surfacing of the last error when all fail). -/
theorem c1_first_defined_value_wins (r : ParamResolver) (now : Nat) (st : RState)
    (name sourceType key : String) (dflt : Option String)
    (pre : List Source) (s : Source) (post : List Source) (v : String)
    (hmiss : (getCachedValue now r.cacheTimeout st.cache
      (cacheKeyStr name sourceType key)).1 = none)
    (hchain : getOrderedSources r sourceType = pre ++ s :: post)
    (hpre : ∀ s' ∈ pre, noValue (s'.resolve key) = true)
    (hs : s.resolve key = .ok (.vStr v)) :
    resolvePlaceholder r now st name sourceType key dflt =
      (.ok v,
       ⟨setCachedValue
          (getCachedValue now r.cacheTimeout st.cache (cacheKeyStr name sourceType key)).2
          (cacheKeyStr name sourceType key) v now,
        st.calls ++ walkCalls key pre ++ [(s.name, key)],
        st.logs ++ walkWarnLogs key pre⟩) :=
  resolvePlaceholder_walk_success r now st name sourceType key dflt pre s post v
    hmiss hchain hpre hs

/-- An `env` source that throws for every key. -/
def envMissSrc : Source :=
  ⟨"EnvSource", fun _ => .err "env miss"⟩

/-- A file source holding `file_value` for the key `SHARED`. -/
def fileHitSrc : Source :=
  ⟨"FileSource", fun k => if k = "SHARED" then .ok (.vStr "file_value") else .err "file miss"⟩

/-- A resolver with `env` (always failing) and `file` (holding `SHARED`). -/
def rEnvFile : ParamResolver := ⟨[("env", envMissSrc), ("file", fileHitSrc)], 60000⟩

/-- The empty resolver state: empty cache, no calls, no logs. -/
def stEmpty : RState := ⟨[], [], []⟩

theorem c1_first_defined_value_wins_witness :
    resolvePlaceholder rEnvFile 0 stEmpty "n" "env" "SHARED" none =
      (.ok "file_value",
       ⟨[(cacheKeyStr "n" "env" "SHARED", ⟨"file_value", 0⟩)],
        [("EnvSource", "SHARED"), ("FileSource", "SHARED")],
        [sourceFailLog "EnvSource" "SHARED" "env miss"]⟩) := by
  have h := c1_first_defined_value_wins rEnvFile 0 stEmpty "n" "env" "SHARED" none
    [envMissSrc] fileHitSrc [] "file_value" rfl rfl
    (by
      intro s' hs'
      simp only [List.mem_singleton] at hs'
      subst hs'
      rfl)
    rfl
  simpa [rEnvFile, stEmpty, walkCalls, walkWarnLogs, envMissSrc, fileHitSrc,
    setCachedValue, getCachedValue, eraseKey] using h

/-- C6: when every source in the chain produces no defined, non-null value
(or the chain is empty): with a default supplied, `resolvePlaceholder`
returns it verbatim and the cache receives no insertion; with no default it
fails with the `Could not resolve placeholder` error naming the key, the
declared source and the last thrown error message. -/
theorem c6_exhausted_chain_default_or_error (r : ParamResolver) (now : Nat)
    (st : RState) (name sourceType key : String)
    (hmiss : (getCachedValue now r.cacheTimeout st.cache
      (cacheKeyStr name sourceType key)).1 = none)
    (hall : ∀ s ∈ getOrderedSources r sourceType, noValue (s.resolve key) = true) :
    (∀ d : String,
      resolvePlaceholder r now st name sourceType key (some d) =
        (.ok d,
         ⟨(getCachedValue now r.cacheTimeout st.cache (cacheKeyStr name sourceType key)).2,
          st.calls ++ walkCalls key (getOrderedSources r sourceType),
          st.logs ++ walkWarnLogs key (getOrderedSources r sourceType)⟩)) ∧
    resolvePlaceholder r now st name sourceType key none =
      (.error (unresolvedMsg key sourceType
         (lastThrownError key (getOrderedSources r sourceType) none)),
       ⟨(getCachedValue now r.cacheTimeout st.cache (cacheKeyStr name sourceType key)).2,
        st.calls ++ walkCalls key (getOrderedSources r sourceType),
        st.logs ++ walkWarnLogs key (getOrderedSources r sourceType)⟩) := by
  cases hgc : getCachedValue now r.cacheTimeout st.cache (cacheKeyStr name sourceType key) with
  | mk g1 g2 =>
    rw [hgc] at hmiss
    simp only at hmiss
    subst hmiss
    constructor
    · intro d
      simp only [resolvePlaceholder, hgc]
      rw [trySources_none key _ none _ hall]
    · simp only [resolvePlaceholder, hgc]
      rw [trySources_none key _ none _ hall]

theorem c6_exhausted_chain_default_or_error_witness :
    resolvePlaceholder rEnvFile 0 stEmpty "n" "env" "NOPE" (some "dflt") =
      (.ok "dflt", ⟨[], [("EnvSource", "NOPE"), ("FileSource", "NOPE")],
        [sourceFailLog "EnvSource" "NOPE" "env miss",
         sourceFailLog "FileSource" "NOPE" "file miss"]⟩) ∧
    resolvePlaceholder rEnvFile 0 stEmpty "n" "env" "NOPE" none =
      (.error (unresolvedMsg "NOPE" "env" (some "file miss")),
       ⟨[], [("EnvSource", "NOPE"), ("FileSource", "NOPE")],
        [sourceFailLog "EnvSource" "NOPE" "env miss",
         sourceFailLog "FileSource" "NOPE" "file miss"]⟩) := by
  have h := c6_exhausted_chain_default_or_error rEnvFile 0 stEmpty "n" "env" "NOPE"
    rfl
    (by
      have hc : getOrderedSources rEnvFile "env" = [envMissSrc, fileHitSrc] := rfl
      rw [hc]
      intro s hs
      simp only [List.mem_cons, List.not_mem_nil, or_false] at hs
      rcases hs with rfl | rfl
      · rfl
      · rfl)
  obtain ⟨h1, h2⟩ := h
  constructor
  · have := h1 "dflt"
    simpa [rEnvFile, stEmpty, walkCalls, walkWarnLogs, envMissSrc, fileHitSrc,
      getCachedValue, lastThrownError] using this
  · simpa [rEnvFile, stEmpty, walkCalls, walkWarnLogs, envMissSrc, fileHitSrc,
      getCachedValue, lastThrownError] using h2

/-- The fallback chain as §4.4 step 2 of the spec words it:
`[declaredSource] + (PrecedenceList \\ declaredSource)`, filtered to the
source identifiers present in the source registration. -/
def specFallbackChainIds (registered : List String) (declared : String) :
    List String :=
  (declared :: sourcePrecedence.filter (fun t => t ≠ declared)).filter
    (fun t => registered.contains t)

theorem contains_keys_eq_lookup_isSome (l : List (String × Source)) (t : String) :
    (l.map Prod.fst).contains t = (l.lookup t).isSome := by
  induction l with
  | nil => simp [List.lookup]
  | cons p rest ih =>
    rw [List.map_cons, List.contains_cons, List.lookup]
    cases hbe : t == p.1 with
    | true => rfl
    | false => exact ih

theorem filterMap_lookup_filter_contains (l : List (String × Source)) :
    ∀ ts : List String,
      (ts.filter (fun t => (l.map Prod.fst).contains t)).filterMap
          (fun t => l.lookup t) =
        ts.filterMap (fun t => l.lookup t) := by
  intro ts
  induction ts with
  | nil => rfl
  | cons t ts ih =>
    rw [List.filter_cons, List.filterMap_cons]
    cases hl : l.lookup t with
    | none =>
      have hc : (l.map Prod.fst).contains t = false := by
        rw [contains_keys_eq_lookup_isSome, hl]
        rfl
      rw [hc]
      simpa using ih
    | some s =>
      have hc : (l.map Prod.fst).contains t = true := by
        rw [contains_keys_eq_lookup_isSome, hl]
        rfl
      rw [hc]
      simp only [if_true]
      rw [List.filterMap_cons, hl, ih]

/-- C2: the ordered list of sources tried for a placeholder declaring
source `declared` is exactly the registered instances of
`[declared] ++ (precedence list with declared removed, in order)`, keeping
only identifiers present in the source registration (the spec-side formula
`specFallbackChainIds`); in particular, with both `env` and `file`
registered and holding a value for the key, a placeholder declaring `file`
resolves to the `file` value. -/
theorem c2_declared_source_first (r : ParamResolver) (declared : String) :
    (getOrderedSources r declared =
      (specFallbackChainIds (r.sources.map Prod.fst) declared).filterMap
        (fun t => r.sources.lookup t)) ∧
    (∀ (se sf : Source) (now : Nat) (st : RState) (name key : String)
       (d : Option String) (ve vf : String),
      r.sources.lookup "env" = some se → se.resolve key = .ok (.vStr ve) →
      r.sources.lookup "file" = some sf → sf.resolve key = .ok (.vStr vf) →
      (getCachedValue now r.cacheTimeout st.cache (cacheKeyStr name "file" key)).1 = none →
      (resolvePlaceholder r now st name "file" key d).1 = .ok vf) := by
  constructor
  · rw [getOrderedSources, specFallbackChainIds,
      filterMap_lookup_filter_contains, List.filterMap_cons]
    cases hl : r.sources.lookup declared with
    | none => simp
    | some s => simp
  · intro se sf now st name key d ve vf hle hre hlf hrf hmiss
    have hchain : getOrderedSources r "file" =
        [] ++ sf :: (sourcePrecedence.filter (fun t => t ≠ "file")).filterMap
          (fun t => r.sources.lookup t) := by
      simp [getOrderedSources, hlf]
    rw [resolvePlaceholder_walk_success r now st name "file" key d
      [] sf _ vf hmiss hchain (by simp) hrf]

/-- An `env` source holding `env_value` for the key `SHARED`. -/
def envHitSrc : Source :=
  ⟨"EnvSource", fun k => if k = "SHARED" then .ok (.vStr "env_value") else .err "env miss"⟩

/-- A resolver registering both `env` and `file`, each holding `SHARED`. -/
def rEnvFileBoth : ParamResolver := ⟨[("env", envHitSrc), ("file", fileHitSrc)], 60000⟩

theorem c2_declared_source_first_witness :
    (getOrderedSources rEnvFileBoth "file" =
      (specFallbackChainIds (rEnvFileBoth.sources.map Prod.fst) "file").filterMap
        (fun t => rEnvFileBoth.sources.lookup t)) ∧
    (resolvePlaceholder rEnvFileBoth 0 stEmpty "n" "file" "SHARED" none).1 =
      .ok "file_value" := by
  have h := c2_declared_source_first rEnvFileBoth "file"
  refine ⟨h.1, ?_⟩
  exact h.2 envHitSrc fileHitSrc 0 stEmpty "n" "SHARED" none "env_value" "file_value"
    rfl (by rfl) rfl (by rfl) rfl

/-- A resolver with no sources and the default 60000 ms TTL. -/
def rNoSources : ParamResolver := ⟨[], 60000⟩

/-- A state whose top-level cache holds `"v"` for `(n, env, K)`, inserted
at timestamp 0. -/
def stCached : RState := ⟨[(cacheKeyStr "n" "env" "K", ⟨"v", 0⟩)], [], []⟩

/-- C3 counterexample: a cache entry read when its age exactly equals the
TTL (`t - insertedAt = ttl`, so not `< ttl`) is nevertheless served, with
the whole walk short-circuited (the state, including the calls trace, is
returned unchanged) — refuting the claimed `t - insertedAt < ttl` validity
condition. -/
theorem c3_age_equal_ttl_served :
    resolvePlaceholder rNoSources 60000 stCached "n" "env" "K" none =
      (.ok "v", stCached) ∧
    ¬(60000 - 0 < 60000) := by
  constructor
  · rfl
  · decide

/-- C3 (amended): an entry read at time `t` is served — short-circuiting
the fallback walk with no backend call — iff `t - insertedAt ≤ ttl`; an
entry whose age strictly exceeds the TTL is never served: it is lazily
evicted on that read and the walk performs a fresh backend call on the
first chain source. -/
theorem c3_cache_entry_validity (r : ParamResolver) (now ts : Nat) (st : RState)
    (name sourceType key : String) (d : Option String) (v : String)
    (hlook : st.cache.lookup (cacheKeyStr name sourceType key) = some ⟨v, ts⟩) :
    (now - ts ≤ r.cacheTimeout →
      resolvePlaceholder r now st name sourceType key d = (.ok v, st)) ∧
    (r.cacheTimeout < now - ts →
      getCachedValue now r.cacheTimeout st.cache (cacheKeyStr name sourceType key) =
        (none, eraseKey (cacheKeyStr name sourceType key) st.cache) ∧
      ∀ s rest, getOrderedSources r sourceType = s :: rest →
        ∃ ext, (resolvePlaceholder r now st name sourceType key d).2.calls =
          st.calls ++ (s.name, key) :: ext) := by
  constructor
  · intro h
    have hno : ¬(now - ts > r.cacheTimeout) := not_lt.mpr h
    have hgc : getCachedValue now r.cacheTimeout st.cache (cacheKeyStr name sourceType key) =
        (some v, st.cache) := by
      simp only [getCachedValue, hlook]
      rw [if_neg hno]
    simp only [resolvePlaceholder, hgc]
  · intro h
    have hgc : getCachedValue now r.cacheTimeout st.cache (cacheKeyStr name sourceType key) =
        (none, eraseKey (cacheKeyStr name sourceType key) st.cache) := by
      simp only [getCachedValue, hlook]
      rw [if_pos h]
    refine ⟨hgc, ?_⟩
    intro s rest hchain
    simp only [resolvePlaceholder, hgc, hchain]
    obtain ⟨ext, hext⟩ := trySources_head_called key s rest none
      ⟨eraseKey (cacheKeyStr name sourceType key) st.cache, st.calls, st.logs⟩
    refine ⟨ext, ?_⟩
    cases htr : trySources key (s :: rest) none
        ⟨eraseKey (cacheKeyStr name sourceType key) st.cache, st.calls, st.logs⟩ with
    | mk found p2 =>
      cases p2 with
      | mk le st2 =>
        rw [htr] at hext
        simp only at hext
        cases found with
        | some v' => simpa using hext
        | none =>
          cases d with
          | some dd => simpa using hext
          | none => simpa using hext

theorem c3_cache_entry_validity_witness :
    resolvePlaceholder rEnvFile 1000 stCached "n" "env" "K" none = (.ok "v", stCached) ∧
    (getCachedValue 200000 60000 stCached.cache (cacheKeyStr "n" "env" "K") = (none, []) ∧
     ∃ ext, (resolvePlaceholder rEnvFile 200000 stCached "n" "env" "K" none).2.calls =
       [] ++ ("EnvSource", "K") :: ext) := by
  have h1 := (c3_cache_entry_validity rEnvFile 1000 0 stCached "n" "env" "K" none "v"
    rfl).1 (by decide)
  have h2 := (c3_cache_entry_validity rEnvFile 200000 0 stCached "n" "env" "K" none "v"
    rfl).2 (by decide)
  refine ⟨h1, h2.1, ?_⟩
  exact h2.2 envMissSrc [fileHitSrc] rfl

/-- C10: a `null`, `undefined`, empty-string or non-string input is
returned unchanged by `resolveText`, with the state — cache, backend-call
trace and log trace — returned untouched for every resolver and every
state, so no cache lookup and no source call can have been observed. -/
theorem c10_falsy_or_nonstring_passthrough (r : ParamResolver) (now : Nat)
    (st : RState) (input : JSInput)
    (h : input = .jnull ∨ input = .jundef ∨ input = .jstr "" ∨ input = .jother) :
    resolveText r now st input = (.ok input, st) := by
  rcases h with rfl | rfl | rfl | rfl
  · rfl
  · rfl
  · rfl
  · rfl

theorem c10_falsy_or_nonstring_passthrough_witness :
    resolveText rEnvFile 0 stEmpty .jnull = (.ok .jnull, stEmpty) ∧
    resolveText rEnvFile 0 stEmpty (.jstr "") = (.ok (.jstr ""), stEmpty) := by
  constructor
  · exact c10_falsy_or_nonstring_passthrough rEnvFile 0 stEmpty .jnull (Or.inl rfl)
  · exact c10_falsy_or_nonstring_passthrough rEnvFile 0 stEmpty (.jstr "")
      (Or.inr (Or.inr (Or.inl rfl)))

theorem resolveLoop_append (r : ParamResolver) (now : Nat) :
    ∀ (pre rest : List PHMatch) (st : RState) (txt : List Char),
      resolveLoop r now st txt (pre ++ rest) =
        match resolveLoop r now st txt pre with
        | (.ok txt1, st1) => resolveLoop r now st1 txt1 rest
        | (.error e, st1) => (.error e, st1) := by
  intro pre
  induction pre with
  | nil =>
    intro rest st txt
    simp [resolveLoop]
  | cons m0 pre ih =>
    intro rest st txt
    rw [List.cons_append]
    simp only [resolveLoop]
    cases hrp : resolvePlaceholder r now st (String.mk m0.name) (String.mk m0.source)
        (String.mk m0.key) (m0.defaultValue.map String.mk) with
    | mk res st1 =>
      cases res with
      | ok v => exact ih rest st1 (jsReplace txt m0.full v.data)
      | error e =>
        cases hdv : m0.defaultValue with
        | some dd =>
          exact ih rest
            { st1 with logs := st1.logs ++ [resolveFailLog m0.full e] }
            (jsReplace txt m0.full dd)
        | none => rfl

/-- C5: substitution is all-or-nothing per document.  If the loop of
`resolveText`, having processed the matches before `m` from the actual
initial state, reaches `m` in state `stm`, and the resolution of `m` from
`stm` fails while `m` carries no default, then the entire `resolveText`
call returns `Except.error` with the `Failed to resolve required
placeholder` message — no partially substituted document reaches the
caller (the error result carries no document). -/
theorem c5_all_or_nothing (r : ParamResolver) (now : Nat) (st : RState)
    (text : String) (pre : List PHMatch) (m : PHMatch) (post : List PHMatch)
    (txtm : List Char) (stm : RState) (e : String) (stm' : RState)
    (hsplit : matchAll text.data = pre ++ m :: post)
    (hnodef : m.defaultValue = none)
    (hpre : resolveLoop r now st text.data pre = (.ok txtm, stm))
    (hfail : resolvePlaceholder r now stm (String.mk m.name) (String.mk m.source)
      (String.mk m.key) none = (.error e, stm')) :
    resolveText r now st (.jstr text) =
      (.error (requiredMsg m.full e),
       ⟨stm'.cache, stm'.calls, stm'.logs ++ [resolveFailLog m.full e]⟩) := by
  have he : text ≠ "" := by
    intro h
    subst h
    simp [matchAll, matchAllFuel] at hsplit
  simp only [resolveText]
  rw [if_neg he]
  simp only [resolveTextS]
  rw [if_neg he]
  rw [hsplit, resolveLoop_append r now pre (m :: post) st text.data, hpre]
  simp only [resolveLoop, hnodef, Option.map_none', hfail]

theorem c5_all_or_nothing_witness :
    resolveText rEnvFile 0 stEmpty (.jstr "a <a:env#NOPE> b") =
      (.error (requiredMsg "<a:env#NOPE>".data
         (unresolvedMsg "NOPE" "env" (some "file miss"))),
       ⟨[], [("EnvSource", "NOPE"), ("FileSource", "NOPE")],
        [sourceFailLog "EnvSource" "NOPE" "env miss",
         sourceFailLog "FileSource" "NOPE" "file miss",
         resolveFailLog "<a:env#NOPE>".data
           (unresolvedMsg "NOPE" "env" (some "file miss"))]⟩) := by
  have h := c5_all_or_nothing rEnvFile 0 stEmpty "a <a:env#NOPE> b"
    [] ⟨"<a:env#NOPE>".data, "a".data, "env".data, "NOPE".data, none⟩ []
    "a <a:env#NOPE> b".data stEmpty
    (unresolvedMsg "NOPE" "env" (some "file miss"))
    ⟨[], [("EnvSource", "NOPE"), ("FileSource", "NOPE")],
     [sourceFailLog "EnvSource" "NOPE" "env miss",
      sourceFailLog "FileSource" "NOPE" "file miss"]⟩
    (by decide) rfl rfl rfl
  exact h

/-- A 25-character alphanumeric secret token. -/
def secretToken : String := "abcdefghijklmnopqrstuvwxy"

/-- A vault source whose failure message embeds the secret token. -/
def vaultLeakSrc : Source :=
  ⟨"VaultSource", fun _ => .err ("Access denied for token " ++ secretToken)⟩

/-- A resolver registering only the leaking vault source. -/
def rVaultLeak : ParamResolver := ⟨[("vault", vaultLeakSrc)], 60000⟩

/-- C7 (code bug): for a step whose resolution fails with an error message
embedding a 25-character alphanumeric token, the error text emitted to the
log sink (`console.warn` in the walk, `console.error` in `resolveText` and
in the step handler) contains the token verbatim — it never passed the
masking filter — even though the same run of `maskSensitiveInfo` over each
of those lines would have masked it, and the message surfaced to the gRPC
caller is indeed masked.  The claim that every logged error message passes
the filter is therefore violated by the code. -/
theorem c7_logs_leak_secret_token :
    (∃ log ∈ (handleStepExecutionStarting rVaultLeak 0 stEmpty "<db:vault#PASS>").2.logs,
      containsSub secretToken.data log.data = true) ∧
    (∀ log ∈ (handleStepExecutionStarting rVaultLeak 0 stEmpty "<db:vault#PASS>").2.logs,
      containsSub secretToken.data (maskSensitiveInfo log).data = false) ∧
    (∀ msg, (handleStepExecutionStarting rVaultLeak 0 stEmpty "<db:vault#PASS>").1.errorMessage =
        some msg → containsSub secretToken.data msg.data = false) := by
  refine ⟨?_, ?_, ?_⟩
  · refine ⟨sourceFailLog "VaultSource" "PASS" ("Access denied for token " ++ secretToken),
      ?_, ?_⟩
    · decide
    · decide
  · decide
  · decide

/-- An env source answering `"$$"` for every key. -/
def dollarEnvSrc : Source := ⟨"EnvSource", fun _ => .ok (.vStr "$$")⟩

/-- A resolver whose env source resolves every key to `"$$"`. -/
def rDollar : ParamResolver := ⟨[("env", dollarEnvSrc)], 60000⟩

/-- An env source answering `"$&"` for every key. -/
def matchRefEnvSrc : Source := ⟨"EnvSource", fun _ => .ok (.vStr "$&")⟩

/-- A resolver whose env source resolves every key to `"$&"`. -/
def rMatchRef : ParamResolver := ⟨[("env", matchRefEnvSrc)], 60000⟩

/-- C8 (code bug): substitution is not a literal, character-for-character
splice of the resolved value.  `resolveText` substitutes via the JavaScript
`String.replace(string, value)`, which interprets `$` sequences in the
value: a resolved value `$$` is spliced as the single character `$`, and a
resolved value `$&` is spliced as the matched placeholder itself, so the
substituted text differs from the value. -/
theorem c8_dollar_sequences_not_literal :
    (resolveTextS rDollar 0 stEmpty "pay <amt:env#COST> now").1 = .ok "pay $ now" ∧
    (resolveTextS rDollar 0 stEmpty "pay <amt:env#COST> now").1 ≠ .ok "pay $$ now" ∧
    (resolveTextS rMatchRef 0 stEmpty "pay <amt:env#COST> now").1 =
      .ok "pay <amt:env#COST> now" := by
  have h1 : (resolveTextS rDollar 0 stEmpty "pay <amt:env#COST> now").1 =
      .ok "pay $ now" := rfl
  refine ⟨h1, ?_, rfl⟩
  rw [h1]
  intro hc
  have h2 : "pay $ now" = "pay $$ now" := by injection hc
  exact absurd h2 (by decide)

/-- The mirrored output path of every file in a directory tree, in the
order the batch walk visits them (spec-side description of §4.6: each file
of the input tree yields exactly one output at its relative path under the
output root), fuel-indexed like the walk itself. -/
def mirroredFilePaths : Nat → List String → List FsItem → List (List String)
  | 0, _, _ => []
  | _ + 1, _, [] => []
  | fuel + 1, pre, .file nm _ :: rest => (pre ++ [nm]) :: mirroredFilePaths fuel pre rest
  | fuel + 1, pre, .dir nm items :: rest =>
    mirroredFilePaths fuel (pre ++ [nm]) items ++ mirroredFilePaths fuel pre rest

/-- C9: batch failure isolation.  (a) The batch walk produces exactly one
output per file of the input tree, at its mirrored path, whatever the
resolution outcomes — no document failure aborts or skips the remainder.
(b) A spec file whose resolution fails is emitted with its original
content (copy-through), flagged as a recorded failure, with the failure
logged. -/
theorem c9_batch_failure_isolated (r : ParamResolver) (now : Nat) :
    (∀ (fuel : Nat) (items : List FsItem) (pre : List String) (st : RState),
      enoughFuel fuel items = true →
      (processDirectoryRecursive r now fuel items pre st).1.map OutFile.path =
        mirroredFilePaths fuel pre items) ∧
    (∀ (content : String) (st0 st1 : RState) (e : String),
      resolveTextS r now st0 content = (.error e, st1) →
      processSpecFile r now st0 content =
        (content, true,
         ⟨st1.cache, st1.calls, st1.logs ++ ["Failed to process spec file: " ++ e]⟩)) := by
  constructor
  · intro fuel
    induction fuel with
    | zero =>
      intro items pre st hle
      cases items with
      | nil => rfl
      | cons x rest => simp [enoughFuel] at hle
    | succ fuel ih =>
      intro items pre st hle
      cases items with
      | nil => rfl
      | cons x rest =>
        cases x with
        | file nm content =>
          rw [enoughFuel] at hle
          simp only [processDirectoryRecursive, mirroredFilePaths]
          by_cases hspec : isSpecFile nm
          · simp only [hspec, if_true]
            simp [ih rest pre _ hle]
          · simp only [hspec, if_false]
            simp [ih rest pre _ hle]
        | dir nm items' =>
          rw [enoughFuel, Bool.and_eq_true] at hle
          simp only [processDirectoryRecursive, mirroredFilePaths]
          simp [ih items' (pre ++ [nm]) _ hle.1, ih rest pre _ hle.2]
  · intro content st0 st1 e hfail
    simp only [processSpecFile, hfail]

theorem c9_batch_failure_isolated_witness :
    ((processDirectoryRecursive rEnvFile 0 2
        [.file "bad.spec" "<x:env#MISSING>", .file "good.spec" "go <g:file#SHARED>!"]
        [] stEmpty).1.map OutFile.path =
      mirroredFilePaths 2 []
        [.file "bad.spec" "<x:env#MISSING>", .file "good.spec" "go <g:file#SHARED>!"]) ∧
    (∃ stx, processSpecFile rEnvFile 0 stEmpty "<x:env#MISSING>" =
      ("<x:env#MISSING>", true, stx)) ∧
    ((processDirectoryRecursive rEnvFile 0 2
        [.file "bad.spec" "<x:env#MISSING>", .file "good.spec" "go <g:file#SHARED>!"]
        [] stEmpty).1.map OutFile.content = ["<x:env#MISSING>", "go file_value!"]) ∧
    (((processDirectoryRecursive rEnvFile 0 2
        [.file "bad.spec" "<x:env#MISSING>", .file "good.spec" "go <g:file#SHARED>!"]
        [] stEmpty).1.filter OutFile.failed).length = 1) := by
  refine ⟨(c9_batch_failure_isolated rEnvFile 0).1 2 _ [] stEmpty (by decide),
    ?_, by decide, by decide⟩
  exact ⟨_, (c9_batch_failure_isolated rEnvFile 0).2 "<x:env#MISSING>" stEmpty _ _ rfl⟩

/-- C4 counterexample: the round trip fails for a present-but-empty
default value, which the claim's validity conditions admit
(`defaultValue` present and excluding `>`).  `createPlaceholder` emits
`<n:s#k|>`, whose default group `([^>]+)` demands at least one character,
so `parsePlaceholder` rejects the text entirely instead of returning
`(n, s, k, "")`. -/
theorem c4_empty_default_breaks_roundtrip :
    parsePlaceholder (createPlaceholder "n" "s" "k" (some "")) = none ∧
    parsePlaceholder (createPlaceholder "n" "s" "k" (some "")) ≠
      some ⟨"n", "s", "k", some ""⟩ := by
  refine ⟨rfl, ?_⟩
  decide

theorem takeWhile_append_boundary (p : Char → Bool) :
    ∀ (xs : List Char) (c : Char) (zs : List Char),
      (∀ x ∈ xs, p x = true) → p c = false →
      (xs ++ c :: zs).takeWhile p = xs := by
  intro xs
  induction xs with
  | nil =>
    intro c zs _ hc
    simp [List.takeWhile_cons, hc]
  | cons x xs ih =>
    intro c zs hxs hc
    have hx : p x = true := hxs x (by simp)
    simp only [List.cons_append, List.takeWhile_cons, hx, if_true]
    rw [ih c zs (fun y hy => hxs y (by simp [hy])) hc]

theorem dropWhile_append_boundary (p : Char → Bool) :
    ∀ (xs : List Char) (c : Char) (zs : List Char),
      (∀ x ∈ xs, p x = true) → p c = false →
      (xs ++ c :: zs).dropWhile p = c :: zs := by
  intro xs
  induction xs with
  | nil =>
    intro c zs _ hc
    simp [List.dropWhile_cons, hc]
  | cons x xs ih =>
    intro c zs hxs hc
    have hx : p x = true := hxs x (by simp)
    simp only [List.cons_append, List.dropWhile_cons, hx, if_true]
    exact ih c zs (fun y hy => hxs y (by simp [hy])) hc

theorem span_append_boundary (p : Char → Bool) (xs : List Char) (c : Char)
    (zs : List Char) (hxs : ∀ x ∈ xs, p x = true) (hc : p c = false) :
    (xs ++ c :: zs).span p = (xs, c :: zs) := by
  rw [List.span_eq_take_drop, takeWhile_append_boundary p xs c zs hxs hc,
    dropWhile_append_boundary p xs c zs hxs hc]

theorem matchAt_create_none (nameL sourceL keyL : List Char)
    (hn0 : nameL ≠ []) (hn : ∀ c ∈ nameL, (c != ':') = true)
    (hs0 : sourceL ≠ []) (hs : ∀ c ∈ sourceL, (c != '#') = true)
    (hk0 : keyL ≠ []) (hk : ∀ c ∈ keyL, (c != '|' && c != '>') = true) :
    matchAt ('<' :: (nameL ++ ':' :: (sourceL ++ '#' :: (keyL ++ ['>'])))) =
      some (⟨'<' :: (nameL ++ ':' :: (sourceL ++ '#' :: (keyL ++ ['>']))),
             nameL, sourceL, keyL, none⟩, []) := by
  have h1 := span_append_boundary (fun c => c != ':') nameL ':'
    (sourceL ++ '#' :: (keyL ++ ['>'])) hn rfl
  have h2 := span_append_boundary (fun c => c != '#') sourceL '#'
    (keyL ++ ['>']) hs rfl
  have h3 := span_append_boundary (fun c => c != '|' && c != '>') keyL '>' [] hk rfl
  simp only [matchAt, h1, h2, h3]
  simp [hn0, hs0, hk0, List.append_assoc]

theorem matchAt_create_some (nameL sourceL keyL dL : List Char)
    (hn0 : nameL ≠ []) (hn : ∀ c ∈ nameL, (c != ':') = true)
    (hs0 : sourceL ≠ []) (hs : ∀ c ∈ sourceL, (c != '#') = true)
    (hk0 : keyL ≠ []) (hk : ∀ c ∈ keyL, (c != '|' && c != '>') = true)
    (hd0 : dL ≠ []) (hd : ∀ c ∈ dL, (c != '>') = true) :
    matchAt ('<' :: (nameL ++ ':' :: (sourceL ++ '#' :: (keyL ++ '|' :: (dL ++ ['>']))))) =
      some (⟨'<' :: (nameL ++ ':' :: (sourceL ++ '#' :: (keyL ++ '|' :: (dL ++ ['>'])))),
             nameL, sourceL, keyL, some dL⟩, []) := by
  have h1 := span_append_boundary (fun c => c != ':') nameL ':'
    (sourceL ++ '#' :: (keyL ++ '|' :: (dL ++ ['>']))) hn rfl
  have h2 := span_append_boundary (fun c => c != '#') sourceL '#'
    (keyL ++ '|' :: (dL ++ ['>'])) hs rfl
  have h3 := span_append_boundary (fun c => c != '|' && c != '>') keyL '|'
    (dL ++ ['>']) hk rfl
  have h4 := span_append_boundary (fun c => c != '>') dL '>' [] hd rfl
  simp only [matchAt, h1, h2, h3, h4]
  simp [hn0, hs0, hk0, hd0, List.append_assoc]

theorem data_append (a b : String) : (a ++ b).data = a.data ++ b.data := by
  obtain ⟨as⟩ := a
  obtain ⟨bs⟩ := b
  rfl

/-- C4 (amended): for every tuple whose name is non-empty without `:`,
source non-empty without `#`, key non-empty without `|` or `>`, and whose
default, when present, is **non-empty** and without `>`,
`parsePlaceholder (createPlaceholder name source key default)` returns
exactly `(name, source, key, default)` — in both the no-default and
with-default cases.  (The original claim admitted an empty default, refuted
by `c4_empty_default_breaks_roundtrip`.) -/
theorem c4_parse_create_roundtrip (name source key : String) (dflt : Option String)
    (hn0 : name ≠ "") (hn : ∀ c ∈ name.data, (c != ':') = true)
    (hs0 : source ≠ "") (hs : ∀ c ∈ source.data, (c != '#') = true)
    (hk0 : key ≠ "") (hk : ∀ c ∈ key.data, (c != '|' && c != '>') = true)
    (hd : ∀ d, dflt = some d → d ≠ "" ∧ ∀ c ∈ d.data, (c != '>') = true) :
    parsePlaceholder (createPlaceholder name source key dflt) =
      some ⟨name, source, key, dflt⟩ := by
  obtain ⟨nameL⟩ := name
  obtain ⟨sourceL⟩ := source
  obtain ⟨keyL⟩ := key
  have hn0' : nameL ≠ [] := fun h => hn0 (by rw [show nameL = ("" : String).data from h])
  have hs0' : sourceL ≠ [] := fun h => hs0 (by rw [show sourceL = ("" : String).data from h])
  have hk0' : keyL ≠ [] := fun h => hk0 (by rw [show keyL = ("" : String).data from h])
  cases dflt with
  | none =>
    have hD : (createPlaceholder (String.mk nameL) (String.mk sourceL)
        (String.mk keyL) none).data =
        '<' :: (nameL ++ ':' :: (sourceL ++ '#' :: (keyL ++ ['>']))) := by
      simp [createPlaceholder, data_append, List.append_assoc]
    have hM := matchAt_create_none nameL sourceL keyL hn0' hn hs0' hs hk0' hk
    simp only [parsePlaceholder]
    rw [hD]
    simp only [firstMatch, hM]
    rfl
  | some d =>
    obtain ⟨dL⟩ := d
    obtain ⟨hd0, hdc⟩ := hd (String.mk dL) rfl
    have hd0' : dL ≠ [] := fun h => hd0 (by rw [show dL = ("" : String).data from h])
    have hD : (createPlaceholder (String.mk nameL) (String.mk sourceL)
        (String.mk keyL) (some (String.mk dL))).data =
        '<' :: (nameL ++ ':' :: (sourceL ++ '#' :: (keyL ++ '|' :: (dL ++ ['>'])))) := by
      simp [createPlaceholder, data_append, List.append_assoc]
    have hM := matchAt_create_some nameL sourceL keyL dL hn0' hn hs0' hs hk0' hk hd0' hdc
    simp only [parsePlaceholder]
    rw [hD]
    simp only [firstMatch, hM]
    rfl

theorem c4_parse_create_roundtrip_witness :
    parsePlaceholder (createPlaceholder "user" "env" "TEST_VAR" none) =
      some ⟨"user", "env", "TEST_VAR", none⟩ ∧
    parsePlaceholder (createPlaceholder "x" "file" "db.json.host" (some "localhost")) =
      some ⟨"x", "file", "db.json.host", some "localhost"⟩ := by
  constructor
  · exact c4_parse_create_roundtrip "user" "env" "TEST_VAR" none
      (by decide) (by decide) (by decide) (by decide) (by decide) (by decide)
      (fun d hdq => Option.noConfusion hdq)
  · refine c4_parse_create_roundtrip "x" "file" "db.json.host" (some "localhost")
      (by decide) (by decide) (by decide) (by decide) (by decide) (by decide) ?_
    intro d hdq
    injection hdq with h
    subst h
    exact ⟨by decide, by decide⟩

end GaugeEP
